import Mathlib

/-!
Verification of the gosqlite read-only SQLite decoder.

The development shallowly embeds the `gosqlite` Go package (the version of the
library that exports `OpenDatabase`, consumed by `cmd/dump`): the binary reader
primitives, the variable-length integer decoder, the record (serial-type)
decoder of `Table.Read`, the B-tree page walker `readPage`, and the schema
bootstrap row callback of `OpenDatabase`.

Modelling conventions:
* Go byte buffers are `List Nat`; every primitive read masks with `% 256`, so
  reads are total.  A read beyond the end of a buffer yields byte 0 (Go would
  raise a runtime bounds panic there; no theorem below rests on that corner).
* Go `uint64` arithmetic is `Nat` with explicit `% 2 ^ 64` where the source can
  overflow; `int64` offsets are `Int` (the varint decoder returns the sentinel
  offset `-1`).
* Go error returns are `Except String`; the strings keep the constant part of
  the source's error messages.
* `readPage` recurses through child pages guarded by an explicit fuel
  parameter (the source has no structural termination guarantee), and in
  addition to the source's result it returns the instrumentation trace of page
  numbers entered, in order; the `Except` component mirrors the source exactly.
-/

set_option maxRecDepth 100000

namespace GoSqlite

/-- Go byte slices, one `Nat` per byte. -/
abbrev Bytes := List Nat

/-- Reading a single byte `r[off]` (big-endian primitives build on this).
Out-of-range reads give 0. -/
def byteAt (r : Bytes) (off : Int) : Nat := r.getD off.toNat 0 % 256

/-- BinaryReader.u8: one byte. -/
def u8 (r : Bytes) (off : Int) : Nat := byteAt r off

/-- BinaryReader.u16: `binary.BigEndian.Uint16(r[off:off+2])`. -/
def u16 (r : Bytes) (off : Int) : Nat := byteAt r off * 2 ^ 8 + byteAt r (off + 1)

/-- BinaryReader.u32: `binary.BigEndian.Uint32(r[off:off+4])`. -/
def u32 (r : Bytes) (off : Int) : Nat :=
  byteAt r off * 2 ^ 24 + byteAt r (off + 1) * 2 ^ 16 + byteAt r (off + 2) * 2 ^ 8 +
    byteAt r (off + 3)

/-- BinaryReader.u64: `binary.BigEndian.Uint64(r[off:off+8])`. -/
def u64 (r : Bytes) (off : Int) : Nat :=
  byteAt r off * 2 ^ 56 + byteAt r (off + 1) * 2 ^ 48 + byteAt r (off + 2) * 2 ^ 40 +
    byteAt r (off + 3) * 2 ^ 32 + byteAt r (off + 4) * 2 ^ 24 + byteAt r (off + 5) * 2 ^ 16 +
    byteAt r (off + 6) * 2 ^ 8 + byteAt r (off + 7)

/-- BinaryReader.u24: the source copies the three bytes into the FIRST three
cells of a zeroed 4-byte buffer and big-endian decodes the 4-byte buffer, so
the three bytes land in the high-order positions and the low byte is zero. -/
def u24 (r : Bytes) (off : Int) : Nat :=
  byteAt r off * 2 ^ 24 + byteAt r (off + 1) * 2 ^ 16 + byteAt r (off + 2) * 2 ^ 8

/-- BinaryReader.u48: the source copies the six bytes into the FIRST six cells
of a zeroed 8-byte buffer and big-endian decodes the 8-byte buffer, so the six
bytes land in the high-order positions and the low two bytes are zero. -/
def u48 (r : Bytes) (off : Int) : Nat :=
  byteAt r off * 2 ^ 56 + byteAt r (off + 1) * 2 ^ 48 + byteAt r (off + 2) * 2 ^ 40 +
    byteAt r (off + 3) * 2 ^ 32 + byteAt r (off + 4) * 2 ^ 24 + byteAt r (off + 5) * 2 ^ 16

/-- BinaryReader.read: `r[off : off+len]` (truncated at the end of the buffer
rather than panicking). -/
def readBytes (r : Bytes) (off : Int) (len : Nat) : Bytes := (r.drop off.toNat).take len

/-- Loop body of BinaryReader.decodeVarint: `ret |= uint64(b & 0x7f) << (i*7)`
over the already reversed slice, with uint64 wraparound. -/
def decodeVarintGo (i ret : Nat) : Bytes → Nat
  | [] => ret
  | b :: rest => decodeVarintGo (i + 1) ((ret ||| (b &&& 127) <<< (7 * i)) % 2 ^ 64) rest

/-- BinaryReader.decodeVarint: accumulate the low 7 bits of each byte of the
slice (index `i` shifted by `7*i`) and report `off + len(slice)`. -/
def decodeVarint (off : Int) (slice : Bytes) : Nat × Int :=
  (decodeVarintGo 0 0 slice, off + slice.length)

/-- Scanning for-loop of BinaryReader.varint, written with the remaining
iteration count `rem` (the source's `i < 9` bound corresponds to `i + rem = 9`):
starting at loop index `i`, look for the first byte at `off+i` whose high bit
is clear, returning its index, or `9` when all 9 bytes have the high bit set
(the loop exits by its bound), or `none` when a byte to be examined lies beyond
the buffer (the source's early `return 0, -1`). -/
def varintScanAux (r : Bytes) (off : Int) : (i rem : Nat) → Option Nat
  | i, 0 => some i
  | i, rem + 1 =>
    if off + i ≥ (r.length : Int) then none
    else if byteAt r (off + i) &&& 128 = 0 then some i
    else varintScanAux r off (i + 1) rem

/-- Scanning for-loop of BinaryReader.varint from index 0 with bound 9. -/
def varintScan (r : Bytes) (off : Int) (i : Nat) : Option Nat :=
  varintScanAux r off i (9 - i)

/-- BinaryReader.varint of the gosqlite package: scan up to 9 bytes for a clear
high bit, take `i+1` bytes (`i` the loop index after the loop, so 10 bytes when
all 9 scanned bytes have their high bit set), copy them into a fresh zeroed
buffer, reverse, and decode 7 bits per byte. -/
def varint (r : Bytes) (off : Int) : Nat × Int :=
  match varintScan r off 0 with
  | none => (0, -1)
  | some iBreak =>
    let i := iBreak + 1
    let src := (r.drop off.toNat).take i
    let data := (src ++ List.replicate (i - src.length) 0).reverse
    decodeVarint off data

/-- Decidable equality for Go-style error results, so that concrete runs can be
checked by evaluation. -/
instance {ε α : Type} [DecidableEq ε] [DecidableEq α] : DecidableEq (Except ε α) := fun x y =>
  match x, y with
  | .ok a, .ok b =>
    if h : a = b then .isTrue (h ▸ rfl) else .isFalse (fun he => h (Except.ok.inj he))
  | .error a, .error b =>
    if h : a = b then .isTrue (h ▸ rfl) else .isFalse (fun he => h (Except.error.inj he))
  | .ok _, .error _ => .isFalse (fun he => Except.noConfusion he)
  | .error _, .ok _ => .isFalse (fun he => Except.noConfusion he)

/-! ## Record decoder (body of Table.Read) -/

/-- Decoded column values: the `any` values Table.Read appends. Go stores all
integers as `uint64`, blobs as byte slices, and text as Go strings (raw
bytes). -/
inductive Value where
  | nullV : Value
  | intV : Nat → Value
  | blobV : Bytes → Value
  | textV : Bytes → Value
deriving DecidableEq

/-- Value-decoding loop of Table.Read: walk the serial-type list, decoding each
column at the running payload offset. Unknown serial types are the source's
"unknown value type" error. -/
def decodeValues (payload : Bytes) : List Nat → Int → Except String (List Value)
  | [], _ => .ok []
  | typ :: rest, off =>
    if typ = 0 then
      (decodeValues payload rest off).map (Value.nullV :: ·)
    else if typ = 1 then
      (decodeValues payload rest (off + 1)).map (Value.intV (u8 payload off) :: ·)
    else if typ = 2 then
      (decodeValues payload rest (off + 2)).map (Value.intV (u16 payload off) :: ·)
    else if typ = 3 then
      (decodeValues payload rest (off + 3)).map (Value.intV (u24 payload off) :: ·)
    else if typ = 4 then
      (decodeValues payload rest (off + 4)).map (Value.intV (u32 payload off) :: ·)
    else if typ = 5 then
      (decodeValues payload rest (off + 6)).map (Value.intV (u48 payload off) :: ·)
    else if typ = 6 then
      (decodeValues payload rest (off + 8)).map (Value.intV (u64 payload off) :: ·)
    else if typ = 8 then
      (decodeValues payload rest off).map (Value.intV 0 :: ·)
    else if typ = 9 then
      (decodeValues payload rest off).map (Value.intV 1 :: ·)
    else if 12 ≤ typ ∧ typ % 2 = 0 then
      let length := (typ - 12) / 2
      (decodeValues payload rest (off + length)).map
        (Value.blobV (readBytes payload off length) :: ·)
    else if 13 ≤ typ ∧ typ % 2 = 1 then
      let length := (typ - 13) / 2
      (decodeValues payload rest (off + length)).map
        (Value.textV (readBytes payload off length) :: ·)
    else .error "unknown value type"

/-- Serial-type reading loop of Table.Read: starting after the header-length
varint, read serial-type varints until the cursor reaches `hdrLen`.  The source
loop terminates because every successful varint advances the cursor; `fuel` is
initialised so that it cannot run out before that happens. -/
def typeScan (payload : Bytes) (hdrLen : Nat) : Nat → Int → List Nat → Except String (Int × List Nat)
  | 0, _, _ => .error "out of fuel"
  | fuel + 1, off, acc =>
    if off ≥ (hdrLen : Int) then .ok (off, acc.reverse)
    else
      let (typ, off') := varint payload off
      if off' = -1 then .error "[inner] overflow reading page"
      else typeScan payload hdrLen fuel off' (typ :: acc)

/-- Record decoding performed by the Table.Read cell callback: read the header
length varint, check it against the payload length, collect the serial types,
then decode the values. -/
def decodeRecord (payload : Bytes) : Except String (List Value) :=
  let (hdrLen, payloadOff) := varint payload 0
  if payloadOff = -1 then .error "[outer] overflow reading page"
  else if hdrLen > payload.length then .error "hdrLen is longer than the payload"
  else
    match typeScan payload hdrLen (hdrLen + 1) payloadOff [] with
    | .error e => .error e
    | .ok (off, types) => decodeValues payload types off

/-! ## Page walker (SQLiteDatabase.readPage of the gosqlite package) -/

/-- SQLiteDatabase: the byte source behind `io.ReaderAt` together with the page
size decoded from the header. -/
structure DB where
  data : Bytes
  pageSize : Nat
deriving DecidableEq

/-- SQLiteDatabase.reader: positioned read of `len` bytes at `off`; Go's
`ReadAt` fails when the window is not entirely available. -/
def dbReader (db : DB) (off : Int) (len : Nat) : Except String Bytes :=
  if 0 ≤ off ∧ off + len ≤ (db.data.length : Int) then .ok (readBytes db.data off len)
  else .error "short read"

/-- Cell callbacks passed to readPage: Go's `cbCell func(rowId uint64, r
BinaryReader) error`, with the closure's mutable captures made an explicit
state `σ`. -/
def Cb (σ : Type) := σ → Nat → Bytes → Except String σ

/-- Guarded sequence of child-page visits of the table-interior case: for each
page number in the list, first check the cycle guard (`x == page` aborts with
the source's "attempt to re-read own page" error), then recurse; an error stops
the remaining visits. The second component accumulates the instrumentation
traces of the recursive calls. -/
def visitList (recur : Nat → σ → Except String σ × List Nat) (page : Nat) :
    List Nat → σ → Except String σ × List Nat
  | [], s => (.ok s, [])
  | c :: rest, s =>
    if c = page then (.error "attempt to re-read own page", [])
    else
      match recur c s with
      | (.error e, tr) => (.error e, tr)
      | (.ok s', tr) =>
        let r := visitList recur page rest s'
        (r.1, tr ++ r.2)

/-- Inner loop of the last table-interior cell: `for x := leftMostPointer;
x <= rightMostPointer; x++`, guarding and recursing at each `x`. -/
def runRange (recur : Nat → σ → Except String σ × List Nat) (page lo hi : Nat) (s : σ) :
    Except String σ × List Nat :=
  visitList recur page (List.range' lo (hi + 1 - lo)) s

/-- Cell loop of the table-interior (0x05) case: each cell yields its 32-bit
left child pointer (and a key varint the source discards); every cell except
the last visits just that child, the last cell visits the whole range up to the
right-most pointer. -/
def runCells05 (recur : Nat → σ → Except String σ × List Nat) (page : Nat) (pr : Bytes)
    (rightMost : Nat) : List Nat → σ → Except String σ × List Nat
  | [], s => (.ok s, [])
  | [cp], s =>
    let left := u32 pr cp
    let _key := varint pr ((cp : Int) + 4)
    runRange recur page left rightMost s
  | cp :: rest, s =>
    let left := u32 pr cp
    let _key := varint pr ((cp : Int) + 4)
    if left = page then (.error "attempt to re-read own page", [])
    else
      match recur left s with
      | (.error e, tr) => (.error e, tr)
      | (.ok s', tr) =>
        let r := runCells05 recur page pr rightMost rest s'
        (r.1, tr ++ r.2)

/-- Cell loop of the table-leaf (0x0d) case: each cell yields a payload-size
varint, a rowId varint and the payload slice, handed to the cell callback. -/
def runCells0d (cb : Cb σ) (pr : Bytes) : List Nat → σ → Except String σ × List Nat
  | [], s => (.ok s, [])
  | cp :: rest, s =>
    let r1 := varint pr cp
    let r2 := varint pr r1.2
    let payload := readBytes pr r2.2 r1.1
    match cb s r2.1 payload with
    | .error e => (.error e, [])
    | .ok s' => runCells0d cb pr rest s'

/-- Header offset of a page: page 1 carries the 100-byte file header before its
B-tree page header. -/
def pageHdr (page : Nat) : Int := if page = 1 then 100 else 0

/-- SQLiteDatabase.readPage of the gosqlite package: fetch the page window,
decode the page header (tag, cell count, right-most pointer for 0x05, cell
pointer array) and dispatch on the page-type tag. `fuel` bounds the recursion
depth (the source has no such bound); the trace component records the page
numbers entered, in order. -/
def readPage : Nat → DB → Nat → Cb σ → σ → Except String σ × List Nat
  | 0, _, _, _, _ => (.error "out of fuel", [])
  | fuel + 1, db, page, cb, s =>
    let rawPageOffset : Int := ((page : Int) - 1) * db.pageSize
    match dbReader db rawPageOffset db.pageSize with
    | .error e => (.error e, [page])
    | .ok pr =>
      let off0 := pageHdr page
      let bTreePageType := u8 pr off0
      let numberOfCells := u16 pr (off0 + 3)
      let rightMostPointer := if bTreePageType = 5 then u32 pr (off0 + 8) else 0
      let arrayOff : Int := if bTreePageType = 5 then off0 + 12 else off0 + 8
      let cellPointers := (List.range numberOfCells).map
        (fun i : Nat => u16 pr (arrayOff + 2 * (i : Int)))
      if bTreePageType = 0 then (.ok s, [page])
      else if bTreePageType = 2 then (.ok s, [page])
      else if bTreePageType = 5 then
        let r := runCells05 (fun p s => readPage fuel db p cb s) page pr rightMostPointer
          cellPointers s
        (r.1, page :: r.2)
      else if bTreePageType = 10 then (.ok s, [page])
      else if bTreePageType = 13 then
        let r := runCells0d cb pr cellPointers s
        (r.1, page :: r.2)
      else (.error "unknown bTreePageType", [page])

/-! ## Table.Read wrapper (row-id de-duplication plus record decoding) -/

/-- State of the Table.Read cell callback closure: the `rowIds` set already
seen in this read (a cons list models the Go map's inserts) plus the state of
the user's row callback. -/
structure ReadState (σ : Type) where
  seen : List Nat
  user : σ
deriving DecidableEq

/-- Cell callback Table.Read passes to readPage: skip already-seen rowIds
(the source's "HACK: Right now we just ignore reading duplicate rows"), mark
the rowId seen, decode the record and hand the values to the user callback. -/
def readRowCB (ucb : σ → List Value → Except String σ) : Cb (ReadState σ) :=
  fun s rowId payload =>
    if s.seen.contains rowId then .ok s
    else
      let seen' := rowId :: s.seen
      match decodeRecord payload with
      | .error e => .error e
      | .ok values =>
        match ucb s.user values with
        | .error e => .error e
        | .ok u => .ok ⟨seen', u⟩

/-- Instrumentation row callback counting its own invocations. -/
def rowCounter : Nat → List Value → Except String Nat := fun n _ => .ok (n + 1)

/-- Table.Read: walk the pages from the root page with the de-duplicating,
record-decoding cell callback, starting from an empty seen set. -/
def tableRead (fuel : Nat) (db : DB) (rootPage : Nat)
    (ucb : σ → List Value → Except String σ) (u : σ) : Except String σ × List Nat :=
  let r := readPage fuel db rootPage (readRowCB ucb) ⟨[], u⟩
  (r.1.map ReadState.user, r.2)

/-! ## Schema bootstrap (row callback of OpenDatabase) -/

/-- Table: the exported fields of the Go struct (`db` back-pointer omitted;
`Name` is exported but never assigned by the bootstrap). Strings are raw
bytes. -/
structure TableRec where
  Name : Bytes
  rootPage : Nat
  Sql : Bytes
deriving DecidableEq

/-- Go type assertion `v.(string)`: succeeds on text, otherwise a runtime
panic, modelled as an error aborting the bootstrap. -/
def asTextV : Value → Except String Bytes
  | .textV bs => .ok bs
  | _ => .error "interface conversion panic"

/-- Go type assertion `v.(uint64)`: succeeds on the decoder's integer values,
otherwise a runtime panic, modelled as an error aborting the bootstrap. -/
def asIntV : Value → Except String Nat
  | .intV n => .ok n
  | _ => .error "interface conversion panic"

/-- Bytes of the string "table". -/
def tableKind : Bytes := [116, 97, 98, 108, 101]

/-- Bytes of the string "index". -/
def indexKind : Bytes := [105, 110, 100, 101, 120]

/-- Bytes of the string "view". -/
def viewKind : Bytes := [118, 105, 101, 119]

/-- Row callback OpenDatabase passes to the schema table's Read: skip rows
whose first value is a string other than "table", otherwise register
`tables[val[1]] = Table{rootPage: val[3], Sql: val[4]}`.  Out-of-range row
indexing (Go would panic) reads a NULL, which fails the type assertion just as
a non-string value does.  The catalog map is a cons list, newest entry
first. -/
def schemaRowCB (tables : List (Bytes × TableRec)) (val : List Value) :
    Except String (List (Bytes × TableRec)) :=
  match asTextV (val.getD 0 .nullV) with
  | .error e => .error e
  | .ok kind =>
    if kind ≠ tableKind then .ok tables
    else
      match asTextV (val.getD 1 .nullV) with
      | .error e => .error e
      | .ok name =>
        match asIntV (val.getD 3 .nullV) with
        | .error e => .error e
        | .ok root =>
          match asTextV (val.getD 4 .nullV) with
          | .error e => .error e
          | .ok sql => .ok ((name, ⟨[], root, sql⟩) :: tables)

/-- SQLiteDatabase.Table: catalog lookup, "table not found" when absent; on the
cons-list model the first match is the most recent map assignment. -/
def dbTable (tables : List (Bytes × TableRec)) (name : Bytes) : Except String TableRec :=
  match tables.find? (fun e => e.1 == name) with
  | some e => .ok e.2
  | none => .error "table not found"

/-! ## Concrete databases used as witnesses -/

/-- Callback that ignores every cell. -/
def cbNop : Cb Unit := fun _ _ _ => .ok ()

/-- Four 64-byte pages; page 2 is a table-interior (0x05) page with two cells:
left children 3 and 4, right-most pointer 4; pages 3 and 4 carry tag 0x00. -/
def dbInterior : DB :=
  ⟨List.replicate 64 0 ++
    ([5, 0, 0, 0, 2, 0, 0, 0] ++ [0, 0, 0, 4] ++ [0, 20, 0, 26] ++ [0, 0, 0, 0] ++
      [0, 0, 0, 3, 1, 0] ++ [0, 0, 0, 4, 1] ++ List.replicate 33 0) ++
    List.replicate 128 0, 64⟩

/-- Two 64-byte pages; page 2 is a table-interior page with two cells whose
first cell's left child is page 2 itself. -/
def dbSelfLoop : DB :=
  ⟨List.replicate 64 0 ++
    ([5, 0, 0, 0, 2, 0, 0, 0] ++ [0, 0, 0, 3] ++ [0, 20, 0, 26] ++ [0, 0, 0, 0] ++
      [0, 0, 0, 2, 1, 0] ++ [0, 0, 0, 3, 1] ++ List.replicate 33 0), 64⟩

/-- Two 64-byte pages; page 2 is a table-interior page with a single cell whose
left child is page 2 itself (hit by the last-cell range loop). -/
def dbSelfLoop1 : DB :=
  ⟨List.replicate 64 0 ++
    ([5, 0, 0, 0, 1, 0, 0, 0] ++ [0, 0, 0, 2] ++ [0, 20] ++ [0, 0, 0, 0, 0, 0] ++
      [0, 0, 0, 2, 1] ++ List.replicate 39 0), 64⟩

/-- Two 32-byte pages; page 2 carries the tag 0x00. -/
def dbZeroTag : DB := ⟨List.replicate 64 0, 32⟩

/-- Two 32-byte pages; page 2 carries the unknown tag 0x07. -/
def dbUnknownTag : DB := ⟨List.replicate 32 0 ++ [7] ++ List.replicate 31 0, 32⟩

/-- Two 32-byte pages; page 2 is a table-leaf (0x0d) page with two cells that
share rowId 5, each with the one-byte payload `[0x01]` (an empty record). -/
def dbLeaf : DB :=
  ⟨List.replicate 32 0 ++
    ([13, 0, 0, 0, 2, 0, 0, 0] ++ [0, 20, 0, 24] ++ List.replicate 8 0 ++
      [1, 5, 1, 0] ++ [1, 5, 1] ++ List.replicate 5 0), 32⟩

/-! ## Helper lemmas about the varint decoder -/

/-- Specification-side accumulator for the amended varint claim: the base-128
big-endian value of the low 7 bits of a byte sequence, first byte most
significant. -/
def bigEndian7 (l : Bytes) : Nat := l.foldl (fun acc b => acc * 128 + (b &&& 127)) 0

/-- Oring a multiple of `2 ^ n` onto a number below `2 ^ n` is addition: the
bit ranges are disjoint. -/
lemma lor_mul_pow_eq_add : ∀ (n x y : Nat), x < 2 ^ n → x ||| y * 2 ^ n = x + y * 2 ^ n := by
  intro n
  induction n with
  | zero =>
    intro x y hx
    have hx0 : x = 0 := by omega
    simp [hx0]
  | succ n ih =>
    intro x y hx
    have hb := Nat.bit_decide_mod_two_eq_one_shiftRight_one x
    have hpow : 2 ^ (n + 1) = 2 * 2 ^ n := by rw [pow_succ]; ring
    rw [hpow] at hx ⊢
    have hy : y * (2 * 2 ^ n) = Nat.bit false (y * 2 ^ n) := by
      simp [Nat.bit]; ring
    have hdiv : x >>> 1 = x / 2 := Nat.shiftRight_one x
    have hlt : x / 2 < 2 ^ n := by omega
    have hmod : (decide (x % 2 = 1)).toNat = x % 2 := by
      rcases Nat.mod_two_eq_zero_or_one x with h | h <;> simp [h]
    calc x ||| y * (2 * 2 ^ n)
        = Nat.bit (decide (x % 2 = 1)) (x / 2) ||| Nat.bit false (y * 2 ^ n) := by
          rw [← hy, ← hdiv, hb]
      _ = Nat.bit (decide (x % 2 = 1) || false) (x / 2 ||| y * 2 ^ n) := by
          rw [Nat.lor_bit]
      _ = Nat.bit (decide (x % 2 = 1)) (x / 2 + y * 2 ^ n) := by
          rw [Bool.or_false, ih (x / 2) y hlt]
      _ = 2 * (x / 2 + y * 2 ^ n) + x % 2 := by rw [Nat.bit_val, hmod]
      _ = 2 * (x / 2) + x % 2 + 2 * (y * 2 ^ n) := by ring
      _ = x + y * (2 * 2 ^ n) := by
          have hx2 : 2 * (x / 2) + x % 2 = x := by omega
          rw [hx2]; ring

/-- Masking with 127 keeps a byte below 128. -/
lemma and127_lt (b : Nat) : b &&& 127 < 128 :=
  Nat.lt_succ_of_le (Nat.and_le_right)

/-- Upper bound for the specification-side accumulator. -/
lemma bigEndian7_lt : ∀ (l : Bytes), bigEndian7 l < 2 ^ (7 * l.length) := by
  have key : ∀ (l : Bytes) (acc : Nat),
      l.foldl (fun acc b => acc * 128 + (b &&& 127)) acc < (acc + 1) * 2 ^ (7 * l.length) := by
    intro l
    induction l with
    | nil => intro acc; simp [Nat.lt_succ_self acc]
    | cons b l ih =>
      intro acc
      have h1 := ih (acc * 128 + (b &&& 127))
      have h2 : (acc * 128 + (b &&& 127) + 1) * 2 ^ (7 * l.length) ≤
          (acc + 1) * 2 ^ (7 * (b :: l).length) := by
        have hb := and127_lt b
        have hpow : 2 ^ (7 * (b :: l).length) = 128 * 2 ^ (7 * l.length) := by
          have : 7 * (b :: l).length = 7 + 7 * l.length := by
            simp [List.length_cons]; ring
          rw [this, pow_add]; norm_num
        rw [hpow]
        calc (acc * 128 + (b &&& 127) + 1) * 2 ^ (7 * l.length)
            ≤ ((acc + 1) * 128) * 2 ^ (7 * l.length) := by
              apply Nat.mul_le_mul_right; omega
          _ = (acc + 1) * (128 * 2 ^ (7 * l.length)) := by ring
      calc (b :: l).foldl (fun acc b => acc * 128 + (b &&& 127)) acc
          = l.foldl (fun acc b => acc * 128 + (b &&& 127)) (acc * 128 + (b &&& 127)) := by
            simp [List.foldl_cons]
        _ < (acc * 128 + (b &&& 127) + 1) * 2 ^ (7 * l.length) := h1
        _ ≤ (acc + 1) * 2 ^ (7 * (b :: l).length) := h2
  intro l
  simpa using key l 0

/-- The lower-level accumulation loop of decodeVarint, run on the reversed
byte sequence starting at index `i`, computes the big-endian base-128 value
shifted by `7 * i` (as long as everything stays below 64 bits, which holds for
up to 9 bytes). -/
lemma decodeVarintGo_reverse : ∀ (l : Bytes) (i ret : Nat), 7 * (i + l.length) ≤ 63 →
    ret < 2 ^ (7 * i) → decodeVarintGo i ret l.reverse = bigEndian7 l * 2 ^ (7 * i) + ret := by
  intro l
  induction l using List.reverseRecOn with
  | nil => intro i ret _ _; simp [decodeVarintGo, bigEndian7]
  | append_singleton l b ih =>
    intro i ret hlen hret
    have hlen' : 7 * (i + 1 + l.length) ≤ 63 := by
      simp [List.length_append] at hlen; omega
    have hb := and127_lt b
    have hterm : (b &&& 127) <<< (7 * i) = (b &&& 127) * 2 ^ (7 * i) := Nat.shiftLeft_eq _ _
    have hretlt : ret + (b &&& 127) * 2 ^ (7 * i) < 2 ^ (7 * (i + 1)) := by
      have h1 : (b &&& 127) * 2 ^ (7 * i) ≤ 127 * 2 ^ (7 * i) :=
        Nat.mul_le_mul_right _ (by omega)
      have h2 : 2 ^ (7 * (i + 1)) = 128 * 2 ^ (7 * i) := by
        have : 7 * (i + 1) = 7 + 7 * i := by ring
        rw [this, pow_add]; norm_num
      omega
    have hsmall : ret + (b &&& 127) * 2 ^ (7 * i) < 2 ^ 64 := by
      have : 2 ^ (7 * (i + 1)) ≤ 2 ^ 64 := Nat.pow_le_pow_right (by norm_num) (by omega)
      omega
    have hstep : (ret ||| (b &&& 127) <<< (7 * i)) % 2 ^ 64 =
        ret + (b &&& 127) * 2 ^ (7 * i) := by
      rw [hterm, lor_mul_pow_eq_add (7 * i) ret (b &&& 127) hret,
        Nat.mod_eq_of_lt hsmall]
    calc decodeVarintGo i ret (l ++ [b]).reverse
        = decodeVarintGo (i + 1) ((ret ||| (b &&& 127) <<< (7 * i)) % 2 ^ 64) l.reverse := by
          simp [List.reverse_append, decodeVarintGo]
      _ = decodeVarintGo (i + 1) (ret + (b &&& 127) * 2 ^ (7 * i)) l.reverse := by rw [hstep]
      _ = bigEndian7 l * 2 ^ (7 * (i + 1)) + (ret + (b &&& 127) * 2 ^ (7 * i)) :=
          ih (i + 1) _ (by omega) hretlt
      _ = bigEndian7 (l ++ [b]) * 2 ^ (7 * i) + ret := by
          have happ : bigEndian7 (l ++ [b]) = bigEndian7 l * 128 + (b &&& 127) := by
            simp [bigEndian7, List.foldl_append]
          have hp : 2 ^ (7 * (i + 1)) = 2 ^ (7 * i) * 128 := by
            have : 7 * (i + 1) = 7 * i + 7 := by ring
            rw [this, pow_add]; norm_num
          rw [happ, hp]; ring

/-- Full characterization of the varint scanning loop when it returns an
index: the index lies in the scanned interval, every byte strictly before it
was examined in bounds with its high bit set, and if the loop broke early, the
byte at the index was examined in bounds with its high bit clear. -/
lemma varintScanAux_some : ∀ (r : Bytes) (off : Int) (rem i j : Nat),
    varintScanAux r off i rem = some j →
    i ≤ j ∧ j ≤ i + rem ∧
      (∀ m, i ≤ m → m < j → (off + m < (r.length : Int) ∧ byteAt r (off + m) &&& 128 ≠ 0)) ∧
      (j < i + rem → (off + j < (r.length : Int) ∧ byteAt r (off + j) &&& 128 = 0)) := by
  intro r off rem
  induction rem with
  | zero =>
    intro i j h
    simp [varintScanAux] at h
    refine ⟨by omega, by omega, ?_, by omega⟩
    intro m h1 h2; omega
  | succ rem ih =>
    intro i j h
    rw [varintScanAux] at h
    by_cases hb : off + i ≥ (r.length : Int)
    · simp [hb] at h
    · by_cases hc : byteAt r (off + i) &&& 128 = 0
      · simp [hb, hc] at h
        subst h
        refine ⟨le_refl _, by omega, ?_, fun _ => ⟨by omega, hc⟩⟩
        intro m h1 h2; omega
      · simp [hb, hc] at h
        obtain ⟨h1, h2, h3, h4⟩ := ih (i + 1) j h
        refine ⟨by omega, by omega, ?_, fun hj => h4 (by omega)⟩
        intro m hm1 hm2
        by_cases hmi : m = i
        · subst hmi; exact ⟨by omega, hc⟩
        · exact h3 m (by omega) hm2

/-- Number of bytes the varint decoder consumes once the scan yields an index:
always the index plus one. -/
lemma varint_snd (r : Bytes) (off : Int) (k : Nat) (h : varintScan r off 0 = some k) :
    (varint r off).2 = off + (k + 1) := by
  unfold varint
  rw [h]
  have hlen : ((r.drop off.toNat).take (k + 1)).length ≤ k + 1 := by
    simp [List.length_take]
  simp only [decodeVarint, List.length_reverse, List.length_append, List.length_replicate]
  omega

/-! ## Claims C1 and C2: the variable-length integer decoder -/

/-- Claim C1, counterexample: on the buffer `80 80 80 80 80 80 80 80 FF 00`
the decoder does not use all 8 bits of the 9th byte `FF` verbatim and does not
stop after 9 bytes, as the claim requires (which would give value 255 and next
offset 9); it masks every byte to 7 bits and reads a 10th byte, yielding
`(16256, 10)`. -/
theorem varint_ninth_byte_cx :
    varint (List.replicate 8 0x80 ++ [0xFF, 0x00]) 0 = (16256, 10) ∧
      ((16256 : Nat), (10 : Int)) ≠ (255, 9) := by decide

/-- Claim C1, amended: whenever the scan finds one of the first nine bytes
with a clear high bit (at index `k ≤ 8`), the decoded value is the base-128
big-endian accumulation of the low 7 bits of bytes `off..off+k` — earlier
bytes more significant, the final byte contributing only its low 7 bits, never
all 8 — and the next offset is `off + k + 1`. -/
theorem varint_value_bigEndian (r : Bytes) (off : Int) (k : Nat) (hoff : 0 ≤ off)
    (hscan : varintScan r off 0 = some k) (hk : k ≤ 8) :
    varint r off = (bigEndian7 (readBytes r off (k + 1)), off + (k + 1)) := by
  obtain ⟨h1, h2, h3, h4⟩ :=
    varintScanAux_some r off 9 0 k (by simpa [varintScan] using hscan)
  have hbyte := h4 (by omega)
  have hlenNat : off.toNat + k < r.length := by
    have := hbyte.1
    omega
  have hsrc : ((r.drop off.toNat).take (k + 1)).length = k + 1 := by
    simp [List.length_take, List.length_drop]
    omega
  unfold varint
  rw [hscan]
  simp only [hsrc, Nat.sub_self, List.replicate_zero, List.append_nil]
  have hgo := decodeVarintGo_reverse ((r.drop off.toNat).take (k + 1)) 0 0
    (by simp [hsrc]; omega) (by norm_num)
  simp only [decodeVarint, hgo, List.length_reverse, hsrc, pow_zero, mul_one, Nat.add_zero]
  simp only [readBytes, Nat.mul_zero, pow_zero, mul_one, Nat.cast_add, Nat.cast_one]

/-- Claim C1, witness: the two-byte varint `81 01` decodes to 129 with next
offset 2. -/
theorem varint_value_bigEndian_witness :
    ((0 : Int) ≤ 0 ∧ varintScan [0x81, 0x01] 0 0 = some 1 ∧ 1 ≤ 8) ∧
      varint [0x81, 0x01] 0 = (bigEndian7 (readBytes [0x81, 0x01] 0 (1 + 1)), 0 + (1 + 1)) :=
  ⟨by decide, varint_value_bigEndian [0x81, 0x01] 0 1 (by decide) (by decide) (by decide)⟩

/-- Claim C2, counterexample: when all of the first nine bytes have their high
bit set, the decoder consumes ten bytes, not at most nine: on
`80 ×9, 01` it returns next offset 10 and no sentinel. -/
theorem varint_ten_bytes_cx :
    varint (List.replicate 9 0x80 ++ [0x01]) 0 = (1, 10) ∧
      ¬ ((varint (List.replicate 9 0x80 ++ [0x01]) 0).2 ≤ 0 + 9) := by decide

/-- Sentinel behaviour of the varint scanning loop: if scanning from index `a`
reaches, after `k` high-bit continuation bytes, a byte position that lies
beyond the buffer, the loop returns `none` (the source's early
`return 0, -1`). -/
lemma varintScanAux_none (r : Bytes) (off : Int) (_hoff : 0 ≤ off) :
    ∀ (rem a k : Nat), k < rem → (r.length : Int) ≤ off + (a + k) →
      (∀ j, a ≤ j → j < a + k → byteAt r (off + j) &&& 128 ≠ 0) →
      varintScanAux r off a rem = none := by
  intro rem
  induction rem with
  | zero => intro a k hk; exact absurd hk (by omega)
  | succ rem ih =>
    intro a k hk hoob hprev
    rw [varintScanAux]
    rcases Nat.eq_zero_or_pos k with h0 | hpos
    · subst h0
      have hc : off + (a : Int) ≥ (r.length : Int) := by
        push_cast at hoob
        omega
      rw [if_pos hc]
    · have hhigh : byteAt r (off + a) &&& 128 ≠ 0 := hprev a (le_refl a) (by omega)
      have hin : ¬ (off + (a : Int) ≥ (r.length : Int)) := by
        intro hge
        apply hhigh
        have hlen : r.length ≤ (off + (a : Int)).toNat := by omega
        simp [byteAt, List.getD_eq_getElem?_getD, List.getElem?_eq_none hlen]
      rw [if_neg hin, if_neg hhigh]
      refine ih (a + 1) (k - 1) (by omega) ?_ ?_
      · push_cast at hoob ⊢
        omega
      · intro j hj1 hj2
        exact hprev j (by omega) (by omega)

/-- Claim C2, amended: decoding either returns the sentinel `(0, -1)` or
consumes between 1 and 10 bytes (10 exactly when the first nine bytes all have
their high bit set — one more than the claimed maximum of 9); whenever the
sentinel is not returned, at most one byte beyond the end of the buffer is
consumed (the 10th byte is read without a bounds check); and whenever one of
the first nine byte positions to be examined lies beyond the buffer — every
earlier byte having its high bit set, so that scanning actually reaches it —
decoding returns exactly the sentinel `(0, -1)`, no partial data. -/
theorem varint_bounds :
    (∀ (r : Bytes) (off : Int),
        varint r off = (0, -1) ∨
          (off + 1 ≤ (varint r off).2 ∧ (varint r off).2 ≤ off + 10)) ∧
      (∀ (r : Bytes) (off : Int), 0 ≤ off → (varint r off).2 ≠ -1 →
        (varint r off).2 ≤ (r.length : Int) + 1) ∧
      (∀ (r : Bytes) (off : Int) (i : Nat), 0 ≤ off → i < 9 →
        (r.length : Int) ≤ off + i →
        (∀ j < i, byteAt r (off + j) &&& 128 ≠ 0) →
        varint r off = (0, -1)) := by
  refine ⟨?_, ?_, ?_⟩
  · intro r off
    cases h : varintScan r off 0 with
    | none =>
      left
      unfold varint
      rw [h]
    | some k =>
      right
      obtain ⟨h1, h2, h3, h4⟩ :=
        varintScanAux_some r off 9 0 k (by simpa [varintScan] using h)
      have hs := varint_snd r off k h
      omega
  · intro r off hoff hne
    cases h : varintScan r off 0 with
    | none =>
      exfalso
      apply hne
      unfold varint
      rw [h]
    | some k =>
      obtain ⟨h1, h2, h3, h4⟩ :=
        varintScanAux_some r off 9 0 k (by simpa [varintScan] using h)
      have hs := varint_snd r off k h
      rcases Nat.lt_or_ge k 9 with hk | hk
      · have hb := h4 (by omega)
        omega
      · have hk9 : k = 9 := by omega
        have hb := h3 8 (by omega) (by omega)
        omega
  · intro r off i hoff hi hoob hprev
    have hscan : varintScan r off 0 = none := by
      unfold varintScan
      exact varintScanAux_none r off hoff (9 - 0) 0 i (by omega)
        (by push_cast; omega)
        (fun j hj1 hj2 => hprev j (by omega))
    unfold varint
    rw [hscan]

/-- Claim C2, witness: on the one-byte buffer `05` the decoder consumes one
byte and stays within one byte of the buffer end; and on the one-byte buffer
`80` (a continuation byte at the very end) the second byte position lies beyond
the buffer, so decoding returns the sentinel `(0, -1)`. -/
theorem varint_bounds_witness :
    (varint [0x05] 0 = (0, -1) ∨
        ((0 : Int) + 1 ≤ (varint [0x05] 0).2 ∧ (varint [0x05] 0).2 ≤ 0 + 10)) ∧
      (varint [0x05] 0).2 ≤ ((([0x05] : Bytes).length : Int) + 1) ∧
      varint [0x80] 0 = (0, -1) :=
  ⟨varint_bounds.1 [0x05] 0,
    varint_bounds.2.1 [0x05] 0 (by decide) (by decide),
    varint_bounds.2.2 [0x80] 0 1 (by decide) (by decide) (by decide) (by decide)⟩

/-! ## Claim C5: the 24- and 48-bit readers -/

/-- Claim C5: evaluating the 24-bit reader on bytes `01 00 00` yields
`2 ^ 24` instead of the big-endian 24-bit value `2 ^ 16`, and the 48-bit
reader on `01 00 00 00 00 00` yields `2 ^ 56` instead of `2 ^ 40`: the source
copies the bytes into the high-order end of the wider zeroed buffer, so every
u24 result is 256 times and every u48 result 65536 times the big-endian value
of its bytes. -/
theorem u24_u48_misaligned :
    u24 [1, 0, 0] 0 = 16777216 ∧ (16777216 : Nat) ≠ 65536 ∧
      u48 [1, 0, 0, 0, 0, 0] 0 = 72057594037927936 ∧
      (72057594037927936 : Nat) ≠ 1099511627776 := by decide

/-! ## Claim C4: the serial-type table -/

/-- Claim C4, counterexample: serial type 1 applied to the byte `FF` decodes
to the Go value `uint64(255)`, not the sign-extended signed 8-bit value `-1`
(which as a uint64 would be `2 ^ 64 - 1`); and serial type 3 applied to
`00 00 01` decodes to 256, not the big-endian 24-bit value 1. -/
theorem serial_type_signedness_cx :
    decodeValues [0xFF] [1] 0 = .ok [Value.intV 255] ∧
      Value.intV 255 ≠ Value.intV (2 ^ 64 - 1) ∧
      decodeValues [0, 0, 1] [3] 0 = .ok [Value.intV 256] ∧ (256 : Nat) ≠ 1 := by decide

/-- Claim C4, amended: each serial-type code decodes with the documented
byte width, but the integer codes zero-extend their bytes into a uint64 (no
sign extension: code 1 on `FF` gives 255), code 3 places its three bytes in
the upper lanes of a 32-bit word (an extra factor 256), codes 0, 8, 9 give
NULL, 0, 1, and an odd code of text length 5 (code 23) gives the 5-byte
string; code 13 itself has text length 0. -/
theorem serial_type_table :
    decodeValues [] [0] 0 = .ok [Value.nullV] ∧
      decodeValues [0xFF] [1] 0 = .ok [Value.intV 0xFF] ∧
      decodeValues [0x12, 0x34] [2] 0 = .ok [Value.intV 0x1234] ∧
      decodeValues [0x12, 0x34, 0x56] [3] 0 = .ok [Value.intV 0x12345600] ∧
      decodeValues [0x12, 0x34, 0x56, 0x78] [4] 0 = .ok [Value.intV 0x12345678] ∧
      decodeValues [0x12, 0x34, 0x56, 0x78, 0x9A, 0xBC, 0xDE, 0xF0] [6] 0 =
        .ok [Value.intV 0x123456789ABCDEF0] ∧
      decodeValues [] [8] 0 = .ok [Value.intV 0] ∧
      decodeValues [] [9] 0 = .ok [Value.intV 1] ∧
      decodeValues [104, 101, 108, 108, 111] [23] 0 =
        .ok [Value.textV [104, 101, 108, 108, 111]] ∧
      decodeValues [] [13] 0 = .ok [Value.textV []] := by decide

/-! ## Claim C8: schema bootstrap row handling -/

/-- Claim C8, counterexample: a schema row whose first value is not text at
all — here the integer 7 — is not "skipped without error": the Go type
assertion `val[0].(string)` panics, modelled as an error result, so the
bootstrap aborts instead of skipping the row. -/
theorem schema_row_nontext_kind_cx :
    schemaRowCB [] [Value.intV 7] = .error "interface conversion panic" ∧
      schemaRowCB [] [Value.intV 7] ≠ .ok [] := by decide

/-- Claim C8, amended: for a schema row whose first value is text, the
bootstrap skips the row without error unless the text is "table", and
otherwise registers a catalog entry keyed by the text at index 1, with root
page from the integer at index 3 and source definition text from the text at
index 4; in particular rows whose first column is "index" or "view" never
register anything. -/
theorem schema_row_dispatch (tables : List (Bytes × TableRec)) (val : List Value) (kind : Bytes)
    (hkind : val.getD 0 .nullV = .textV kind) :
    (kind ≠ tableKind → schemaRowCB tables val = .ok tables) ∧
      (∀ (name sql : Bytes) (root : Nat), kind = tableKind →
        val.getD 1 .nullV = .textV name → val.getD 3 .nullV = .intV root →
        val.getD 4 .nullV = .textV sql →
        schemaRowCB tables val = .ok ((name, ⟨[], root, sql⟩) :: tables)) := by
  constructor
  · intro hne
    simp only [List.getD, List.get?_eq_getElem?] at hkind
    simp [schemaRowCB, List.getD, hkind, asTextV, hne]
  · intro name sql root hk h1 h3 h4
    subst hk
    simp only [List.getD, List.get?_eq_getElem?] at hkind h1 h3 h4
    simp [schemaRowCB, List.getD, hkind, h1, h3, h4, asTextV, asIntV]

/-- Claim C8, witness: a "view" row is skipped leaving the catalog unchanged,
and a "table" row with name `t`, root page 2 and empty definition text is
registered. -/
theorem schema_row_dispatch_witness :
    schemaRowCB [] [Value.textV viewKind] = .ok [] ∧
      schemaRowCB []
          [Value.textV tableKind, Value.textV [116], Value.nullV, Value.intV 2,
            Value.textV []] =
        .ok [([116], ⟨[], 2, []⟩)] :=
  ⟨(schema_row_dispatch [] [Value.textV viewKind] viewKind (by decide)).1 (by decide),
    (schema_row_dispatch []
        [Value.textV tableKind, Value.textV [116], Value.nullV, Value.intV 2, Value.textV []]
        tableKind (by decide)).2
      [116] [] 2 rfl (by decide) (by decide) (by decide)⟩

/-! ## Claim C10: the Name field stays empty -/

/-- Claim C10: the bootstrap registers every catalog entry with `Name` equal
to the empty string (the name lives only in the map key), so every handle the
catalog lookup returns has an empty `Name`. -/
theorem table_name_empty :
    (∀ (tables : List (Bytes × TableRec)) (val : List Value)
        (tables' : List (Bytes × TableRec)), schemaRowCB tables val = .ok tables' →
        (∀ e ∈ tables, e.2.Name = []) → ∀ e ∈ tables', e.2.Name = []) ∧
      (∀ (tables : List (Bytes × TableRec)) (name : Bytes) (tbl : TableRec),
        (∀ e ∈ tables, e.2.Name = []) → dbTable tables name = .ok tbl → tbl.Name = []) := by
  constructor
  · intro tables val tables' h hall e he
    unfold schemaRowCB at h
    split at h
    · cases h
    · split at h
      · cases h
        exact hall e he
      · split at h
        · cases h
        · split at h
          · cases h
          · split at h
            · cases h
            · cases h
              rcases List.mem_cons.mp he with he' | he'
              · rw [he']
              · exact hall e he'
  · intro tables name tbl hall h
    unfold dbTable at h
    cases hf : tables.find? (fun e => e.1 == name) with
    | none => rw [hf] at h; cases h
    | some e =>
      rw [hf] at h
      cases h
      exact hall e (List.mem_of_find?_eq_some hf)

/-! ## Helper lemmas about the page walker -/

/-- Flattening of the table-interior cell loop: processing the cell pointer
list equals one guarded visit sequence over the left children of all cells but
the last, followed by the page range from the last cell's left child up to the
right-most pointer. -/
lemma runCells05_eq_visitList {σ : Type} (recur : Nat → σ → Except String σ × List Nat)
    (page : Nat) (pr : Bytes) (rightMost : Nat) :
    ∀ (cps : List Nat) (s : σ), cps ≠ [] →
      runCells05 recur page pr rightMost cps s =
        visitList recur page
          (cps.dropLast.map (fun cp : Nat => u32 pr (cp : Int)) ++
            List.range' (u32 pr ((cps.getLastD 0 : Nat) : Int))
              (rightMost + 1 - u32 pr ((cps.getLastD 0 : Nat) : Int))) s := by
  intro cps
  induction cps with
  | nil => intro s h; exact absurd rfl h
  | cons cp rest ih =>
    intro s _
    cases rest with
    | nil =>
      simp [runCells05, runRange, List.getLastD]
    | cons cp2 rest2 =>
      have hne : cp2 :: rest2 ≠ [] := by simp
      have hd : (cp :: cp2 :: rest2).dropLast = cp :: (cp2 :: rest2).dropLast := rfl
      have hg : (cp :: cp2 :: rest2).getLastD 0 = (cp2 :: rest2).getLastD 0 := rfl
      rw [hd, hg, List.map_cons, List.cons_append]
      show (if u32 pr (cp : Int) = page then (.error "attempt to re-read own page", [])
        else
          match recur (u32 pr (cp : Int)) s with
          | (.error e, tr) => (.error e, tr)
          | (.ok s', tr) =>
            let r := runCells05 recur page pr rightMost (cp2 :: rest2) s'
            (r.1, tr ++ r.2)) = _
      rw [visitList]
      by_cases hguard : u32 pr (cp : Int) = page
      · rw [if_pos hguard, if_pos hguard]
      · rw [if_neg hguard, if_neg hguard]
        rcases hrec : recur (u32 pr (cp : Int)) s with ⟨res, tr1⟩
        cases res with
        | error e => rfl
        | ok smid => simp only [ih smid hne]

/-! ## Claim C3: table-interior fan-out -/

/-- Claim C3: walking a table-interior page (tag 0x05) with a nonempty cell
pointer array performs exactly one guarded recursion into the left child of
each cell but the last, followed by one guarded recursion into every page
number from the last cell's left child up to and including the right-most
pointer, in that order — so each child in that sequence is visited exactly
once per traversal of the parent. -/
theorem interior_fanout {σ : Type} (fuel : Nat) (db : DB) (page : Nat) (cb : Cb σ) (s : σ)
    (pr : Bytes)
    (hpr : dbReader db (((page : Int) - 1) * db.pageSize) db.pageSize = .ok pr)
    (htag : u8 pr (pageHdr page) = 5)
    (hn : 1 ≤ u16 pr (pageHdr page + 3)) :
    readPage (fuel + 1) db page cb s =
      (let cps := (List.range (u16 pr (pageHdr page + 3))).map
          (fun i : Nat => u16 pr (pageHdr page + 12 + 2 * (i : Int)))
       let r := visitList (fun p s => readPage fuel db p cb s) page
          (cps.dropLast.map (fun cp : Nat => u32 pr (cp : Int)) ++
            List.range' (u32 pr ((cps.getLastD 0 : Nat) : Int))
              (u32 pr (pageHdr page + 8) + 1 - u32 pr ((cps.getLastD 0 : Nat) : Int))) s
       (r.1, page :: r.2)) := by
  have hcps : (List.range (u16 pr (pageHdr page + 3))).map
      (fun i : Nat => u16 pr (pageHdr page + 12 + 2 * (i : Int))) ≠ [] := by
    simp only [ne_eq, List.map_eq_nil_iff, List.range_eq_nil]
    omega
  rw [readPage]
  simp only []
  rw [hpr]
  simp only [htag, reduceIte]
  rw [runCells05_eq_visitList (fun p s => readPage fuel db p cb s) page pr
    (u32 pr (pageHdr page + 8)) _ s hcps]
  norm_num

/-- Claim C3, witness: on a concrete database whose page 2 is a table-interior
page with two cells (left children 3 and 4) and right-most pointer 4, the
traversal enters exactly pages 2, 3, 4 and succeeds. -/
theorem interior_fanout_witness :
    (dbReader dbInterior ((((2 : Nat) : Int) - 1) * dbInterior.pageSize) dbInterior.pageSize =
        .ok (readBytes dbInterior.data 64 64) ∧
      u8 (readBytes dbInterior.data 64 64) (pageHdr 2) = 5 ∧
      1 ≤ u16 (readBytes dbInterior.data 64 64) (pageHdr 2 + 3)) ∧
      readPage (4 + 1) dbInterior 2 cbNop () = (.ok (), [2, 3, 4]) :=
  ⟨⟨by decide, by decide, by decide⟩,
    (interior_fanout 4 dbInterior 2 cbNop () (readBytes dbInterior.data 64 64)
      (by decide) (by decide) (by decide)).trans (by decide)⟩

/-! ## Claim C6: the cycle guard -/

/-- Claim C6: before recursing into any child during table-interior traversal
the walker compares the target with the current page, and a self-pointing
child aborts with the "attempt to re-read own page" error instead of
recursing: shown for a first cell of at least two whose left child is the page
itself, and for a single cell whose left child is the page itself (the
right-most-pointer range loop), in both cases entering no other page. -/
theorem cycle_guard {σ : Type} (fuel : Nat) (db : DB) (page : Nat) (cb : Cb σ) (s : σ)
    (pr : Bytes)
    (hpr : dbReader db (((page : Int) - 1) * db.pageSize) db.pageSize = .ok pr)
    (htag : u8 pr (pageHdr page) = 5) :
    (2 ≤ u16 pr (pageHdr page + 3) →
      u32 pr ((u16 pr (pageHdr page + 12) : Nat) : Int) = page →
      readPage (fuel + 1) db page cb s = (.error "attempt to re-read own page", [page])) ∧
      (u16 pr (pageHdr page + 3) = 1 →
        u32 pr ((u16 pr (pageHdr page + 12) : Nat) : Int) = page →
        page ≤ u32 pr (pageHdr page + 8) →
        readPage (fuel + 1) db page cb s = (.error "attempt to re-read own page", [page])) := by
  constructor
  · intro hn2 hL
    have hcps : (List.range (u16 pr (pageHdr page + 3))).map
        (fun i : Nat => u16 pr (pageHdr page + 12 + 2 * (i : Int))) ≠ [] := by
      simp only [ne_eq, List.map_eq_nil_iff, List.range_eq_nil]
      omega
    rw [readPage]
    simp only []
    rw [hpr]
    simp only [htag, reduceIte]
    rw [runCells05_eq_visitList (fun p s => readPage fuel db p cb s) page pr
      (u32 pr (pageHdr page + 8)) _ s hcps]
    obtain ⟨m, hm⟩ : ∃ m, u16 pr (pageHdr page + 3) = m + 2 :=
      ⟨u16 pr (pageHdr page + 3) - 2, by omega⟩
    rw [hm, List.range_succ_eq_map, List.map_cons,
      List.dropLast_cons_of_ne_nil (by simp [List.range_eq_nil]), List.map_cons, List.cons_append,
      visitList]
    norm_num
    rw [if_pos hL]
    exact ⟨rfl, rfl⟩
  · intro hn1 hL hle
    have hcps : (List.range (u16 pr (pageHdr page + 3))).map
        (fun i : Nat => u16 pr (pageHdr page + 12 + 2 * (i : Int))) ≠ [] := by
      simp only [ne_eq, List.map_eq_nil_iff, List.range_eq_nil]
      omega
    rw [readPage]
    simp only []
    rw [hpr]
    simp only [htag, reduceIte]
    rw [runCells05_eq_visitList (fun p s => readPage fuel db p cb s) page pr
      (u32 pr (pageHdr page + 8)) _ s hcps]
    rw [hn1]
    have h1 : List.range 1 = [0] := rfl
    rw [h1, List.map_singleton, List.dropLast_single, List.map_nil, List.nil_append]
    norm_num [List.getLastD]
    rw [hL]
    have hk : u32 pr (pageHdr page + 8) + 1 - page = (u32 pr (pageHdr page + 8) - page) + 1 := by
      omega
    rw [hk, List.range'_succ, visitList]
    simp

/-- Claim C6, witness: two concrete self-pointing interior pages — one with
two cells whose first left child is the page itself, one with a single cell
whose left child is the page itself — both fail with the corruption error
without entering any other page. -/
theorem cycle_guard_witness :
    readPage 4 dbSelfLoop 2 cbNop () = (.error "attempt to re-read own page", [2]) ∧
      readPage 4 dbSelfLoop1 2 cbNop () = (.error "attempt to re-read own page", [2]) :=
  ⟨(cycle_guard 3 dbSelfLoop 2 cbNop () (readBytes dbSelfLoop.data 64 64)
        (by decide) (by decide)).1 (by decide) (by decide),
    (cycle_guard 3 dbSelfLoop1 2 cbNop () (readBytes dbSelfLoop1.data 64 64)
        (by decide) (by decide)).2 (by decide) (by decide) (by decide)⟩

/-! ## Claim C9: page-type dispatch -/

/-- Claim C9: a page whose tag is 0x00 is a successful no-op (state unchanged
for every callback, no page beyond itself entered), as are the index tags 0x02
and 0x0a, and exactly the tags outside {0x00, 0x02, 0x05, 0x0a, 0x0d} produce
the "unknown bTreePageType" decode error of the dispatch. -/
theorem page_dispatch {σ : Type} (fuel : Nat) (db : DB) (page : Nat) (cb : Cb σ) (s : σ)
    (pr : Bytes)
    (hpr : dbReader db (((page : Int) - 1) * db.pageSize) db.pageSize = .ok pr) :
    (u8 pr (pageHdr page) = 0 → readPage (fuel + 1) db page cb s = (.ok s, [page])) ∧
      (u8 pr (pageHdr page) = 2 → readPage (fuel + 1) db page cb s = (.ok s, [page])) ∧
      (u8 pr (pageHdr page) = 10 → readPage (fuel + 1) db page cb s = (.ok s, [page])) ∧
      (u8 pr (pageHdr page) ∉ ([0, 2, 5, 10, 13] : List Nat) →
        readPage (fuel + 1) db page cb s = (.error "unknown bTreePageType", [page])) := by
  refine ⟨fun h => ?_, fun h => ?_, fun h => ?_, fun h => ?_⟩
  · rw [readPage]
    simp only []
    rw [hpr]
    simp [h]
  · rw [readPage]
    simp only []
    rw [hpr]
    simp [h]
  · rw [readPage]
    simp only []
    rw [hpr]
    simp [h]
  · obtain ⟨h0, h2, h5, h10, h13⟩ : u8 pr (pageHdr page) ≠ 0 ∧ u8 pr (pageHdr page) ≠ 2 ∧
        u8 pr (pageHdr page) ≠ 5 ∧ u8 pr (pageHdr page) ≠ 10 ∧ u8 pr (pageHdr page) ≠ 13 := by
      simpa using h
    rw [readPage]
    simp only []
    rw [hpr]
    simp [h0, h2, h5, h10, h13]

/-- Claim C9, witness: a concrete 0x00-tagged page walks as a successful
no-op, and a concrete 0x07-tagged page fails with the unknown-page-type
error. -/
theorem page_dispatch_witness :
    readPage 1 dbZeroTag 2 cbNop () = (.ok (), [2]) ∧
      readPage 1 dbUnknownTag 2 cbNop () = (.error "unknown bTreePageType", [2]) :=
  ⟨(page_dispatch 0 dbZeroTag 2 cbNop () (readBytes dbZeroTag.data 32 32) (by decide)).1
      (by decide),
    (page_dispatch 0 dbUnknownTag 2 cbNop () (readBytes dbUnknownTag.data 32 32)
        (by decide)).2.2.2 (by decide)⟩

/-! ## Invariant preservation through the walker (for claim C7) -/

/-- A guarded visit sequence preserves any state invariant that each
successful recursive call preserves. -/
lemma visitList_pres {σ : Type} (P : σ → Prop) (recur : Nat → σ → Except String σ × List Nat)
    (page : Nat)
    (hrec : ∀ p s s', (recur p s).1 = .ok s' → P s → P s') :
    ∀ (l : List Nat) (s s' : σ),
      (visitList recur page l s).1 = .ok s' → P s → P s' := by
  intro l
  induction l with
  | nil =>
    intro s s' h hp
    simp only [visitList] at h
    cases h
    exact hp
  | cons c rest ih =>
    intro s s' h hp
    rw [visitList] at h
    by_cases hc : c = page
    · rw [if_pos hc] at h
      exact absurd h (by simp)
    · rw [if_neg hc] at h
      rcases hr : recur c s with ⟨res, tr1⟩
      rw [hr] at h
      cases res with
      | error e => exact absurd h (by simp)
      | ok smid =>
        simp only [] at h
        exact ih smid s' h (hrec c s smid (by rw [hr]) hp)

/-- The table-interior cell loop preserves any state invariant that each
successful recursive call preserves. -/
lemma runCells05_pres {σ : Type} (P : σ → Prop) (recur : Nat → σ → Except String σ × List Nat)
    (page : Nat) (pr : Bytes) (rightMost : Nat)
    (hrec : ∀ p s s', (recur p s).1 = .ok s' → P s → P s') :
    ∀ (cps : List Nat) (s s' : σ),
      (runCells05 recur page pr rightMost cps s).1 = .ok s' → P s → P s' := by
  intro cps s s' h hp
  cases cps with
  | nil =>
    simp only [runCells05] at h
    cases h
    exact hp
  | cons cp rest =>
    rw [runCells05_eq_visitList recur page pr rightMost (cp :: rest) s (by simp)] at h
    exact visitList_pres P recur page hrec _ s s' h hp

/-- The table-leaf cell loop preserves any state invariant that each
successful callback invocation preserves. -/
lemma runCells0d_pres {σ : Type} (P : σ → Prop) (cb : Cb σ) (pr : Bytes)
    (hcb : ∀ s rid pl s', cb s rid pl = .ok s' → P s → P s') :
    ∀ (cps : List Nat) (s s' : σ),
      (runCells0d cb pr cps s).1 = .ok s' → P s → P s' := by
  intro cps
  induction cps with
  | nil =>
    intro s s' h hp
    simp only [runCells0d] at h
    cases h
    exact hp
  | cons cp rest ih =>
    intro s s' h hp
    rw [runCells0d] at h
    rcases hc : cb s (varint pr ((varint pr (cp : Int)).2)).1
        (readBytes pr (varint pr ((varint pr (cp : Int)).2)).2 (varint pr (cp : Int)).1) with
      e | smid
    · rw [hc] at h
      exact absurd h (by simp)
    · rw [hc] at h
      exact ih smid s' h (hcb s _ _ smid hc hp)

/-- The page walker preserves any state invariant that each successful
callback invocation preserves. -/
lemma readPage_pres {σ : Type} (P : σ → Prop) (db : DB) (cb : Cb σ)
    (hcb : ∀ s rid pl s', cb s rid pl = .ok s' → P s → P s') :
    ∀ (fuel page : Nat) (s s' : σ),
      (readPage fuel db page cb s).1 = .ok s' → P s → P s' := by
  intro fuel
  induction fuel with
  | zero =>
    intro page s s' h hp
    exact absurd h (by simp [readPage])
  | succ fuel ih =>
    intro page s s' h hp
    rw [readPage] at h
    simp only [] at h
    rcases hdb : dbReader db (((page : Int) - 1) * db.pageSize) db.pageSize with e | pr
    · rw [hdb] at h
      exact absurd h (by simp)
    · rw [hdb] at h
      by_cases h0 : u8 pr (pageHdr page) = 0
      · simp only [if_pos h0] at h
        cases h
        exact hp
      · simp only [if_neg h0] at h
        by_cases h2 : u8 pr (pageHdr page) = 2
        · simp only [if_pos h2] at h
          cases h
          exact hp
        · simp only [if_neg h2] at h
          by_cases h5 : u8 pr (pageHdr page) = 5
          · simp only [if_pos h5] at h
            exact runCells05_pres P (fun p s => readPage fuel db p cb s) page pr _
              (fun p s s' hr hp => ih p s s' hr hp) _ s s' h hp
          · simp only [if_neg h5] at h
            by_cases h10 : u8 pr (pageHdr page) = 10
            · simp only [if_pos h10] at h
              cases h
              exact hp
            · simp only [if_neg h10] at h
              by_cases h13 : u8 pr (pageHdr page) = 13
              · simp only [if_pos h13] at h
                exact runCells0d_pres P cb pr hcb _ s s' h hp
              · simp only [if_neg h13] at h
                exact absurd h (by simp)

/-! ## Claim C7: duplicate row-id suppression in Table.Read -/

/-- Claim C7: within one Table.Read, a leaf cell whose rowId was already seen
earlier in the same read is silently skipped (the callback state is returned
unchanged and the user callback is not invoked), and consequently — shown with
a counting user callback — any successful walk from an empty seen-set invokes
the user callback exactly once per distinct rowId: the invocation count equals
the number of recorded rowIds and those rowIds are pairwise distinct. -/
theorem dedup_rows :
    (∀ (σ : Type) (ucb : σ → List Value → Except String σ) (s : ReadState σ) (rowId : Nat)
        (payload : Bytes), s.seen.contains rowId = true →
        readRowCB ucb s rowId payload = .ok s) ∧
      (∀ (fuel : Nat) (db : DB) (page : Nat) (s' : ReadState Nat),
        (readPage fuel db page (readRowCB rowCounter) ⟨[], 0⟩).1 = .ok s' →
        s'.user = s'.seen.length ∧ s'.seen.Nodup) := by
  constructor
  · intro σ ucb s rowId payload h
    unfold readRowCB
    rw [if_pos h]
  · intro fuel db page s' h
    have hcb : ∀ (s : ReadState Nat) (rid : Nat) (pl : Bytes) (s' : ReadState Nat),
        readRowCB rowCounter s rid pl = .ok s' →
        (s.user = s.seen.length ∧ s.seen.Nodup) →
        (s'.user = s'.seen.length ∧ s'.seen.Nodup) := by
      intro s rid pl s' hc hp
      unfold readRowCB at hc
      by_cases hmem : s.seen.contains rid
      · rw [if_pos hmem] at hc
        cases hc
        exact hp
      · rw [if_neg hmem] at hc
        cases hd : decodeRecord pl with
        | error e => rw [hd] at hc; cases hc
        | ok values =>
          rw [hd] at hc
          simp only [rowCounter] at hc
          cases hc
          refine ⟨by simp [hp.1], List.nodup_cons.mpr ⟨?_, hp.2⟩⟩
          simpa using hmem
    exact readPage_pres _ db _ hcb fuel page ⟨[], 0⟩ s' h ⟨rfl, List.nodup_nil⟩

/-- Claim C7, witness: a state that has already seen rowId 5 skips another
rowId-5 cell unchanged; and walking the concrete leaf page with two rowId-5
cells from an empty state ends with one callback invocation for the single
distinct rowId. -/
theorem dedup_rows_witness :
    readRowCB rowCounter ⟨[5], 3⟩ 5 [1] = .ok ⟨[5], 3⟩ ∧
      ((⟨[5], 1⟩ : ReadState Nat).user = (⟨[5], 1⟩ : ReadState Nat).seen.length ∧
        (⟨[5], 1⟩ : ReadState Nat).seen.Nodup) :=
  ⟨dedup_rows.1 Nat rowCounter ⟨[5], 3⟩ 5 [1] (by decide),
    dedup_rows.2 3 dbLeaf 2 ⟨[5], 1⟩ (by decide)⟩

/-- Claim C10, witness: registering one "table" row named `t` yields a catalog
whose entries, and whose lookup result for `t`, all carry an empty `Name`. -/
theorem table_name_empty_witness :
    (∀ e ∈ [(([116] : Bytes), (⟨[], 2, []⟩ : TableRec))], e.2.Name = []) ∧
      (⟨[], 2, []⟩ : TableRec).Name = [] :=
  ⟨table_name_empty.1 []
      [Value.textV tableKind, Value.textV [116], Value.nullV, Value.intV 2, Value.textV []]
      [([116], ⟨[], 2, []⟩)] (by decide) (by simp),
    table_name_empty.2 [([116], ⟨[], 2, []⟩)] [116] ⟨[], 2, []⟩
      (by simp) (by decide)⟩

end GoSqlite
